import Mathlib

/-!
Verification of the forest-fire percolation simulator (`src/main.rs`).

The Rust program is shallowly embedded below: the lattice is a `side` field
plus a flat row-major list of cell states; `sweep` is the single-buffer,
in-place, row-major pass of the source; `generate` consumes one uniform
draw per linear cell index (draws are modelled as an abstract sequence of
rationals in `[0,1)`, and `f64` arithmetic of the driver as exact rational
arithmetic); the trial loop is a fuel-indexed recursion whose fuel is shown
to be sufficient.
-/

namespace ForestFire

/-- What resides at a point of a lattice (`enum LatticePoint`). -/
inductive LatticePoint where
  | Empty
  | Tree
  | Burning
deriving DecidableEq

/-- Did the sweep result in a new burning tree? (`enum SweepResult`). -/
inductive SweepResult where
  | Identity
  | Ignited
deriving DecidableEq

/-- A structure defining the lattice (`struct Lattice`). -/
structure Lattice where
  side : Nat
  current : List LatticePoint
deriving DecidableEq

/-- The flat row-major index used by `Index`/`IndexMut` for `Lattice`:
`row * self.side + col`. -/
def latticeIndex (side row col : Nat) : Nat :=
  row * side + col

/-- Read a cell through the flat index (the `Index` impl).  Out-of-range
reads, which panic in Rust, default to `Empty`; all reads performed by the
program are proved in range (claim C10). -/
def Lattice.get (L : Lattice) (row col : Nat) : LatticePoint :=
  L.current.getD (latticeIndex L.side row col) LatticePoint.Empty

/-- Write a cell through the flat index (the `IndexMut` impl). -/
def Lattice.set (L : Lattice) (row col : Nat) (v : LatticePoint) : Lattice :=
  { L with current := L.current.set (latticeIndex L.side row col) v }

/-- Embedding of `matches!(_, LatticePoint::Burning)`. -/
def isBurning (c : LatticePoint) : Bool :=
  match c with
  | LatticePoint.Burning => true
  | _ => false

/-- The `should_burn` condition of `Lattice::sweep`: some 4-connected
orthogonal in-grid neighbor is `Burning` (boundary neighbors are guarded
away, not wrapped). -/
def Lattice.shouldBurn (L : Lattice) (i j : Nat) : Bool :=
  (decide (0 < i) && isBurning (L.get (i - 1) j))
    || (decide (i < L.side - 1) && isBurning (L.get (i + 1) j))
    || (decide (0 < j) && isBurning (L.get i (j - 1)))
    || (decide (j < L.side - 1) && isBurning (L.get i (j + 1)))

/-- The body of the inner loop of `Lattice::sweep` at cell `(i, j)`:
a `Tree` cell with a burning neighbor is set to `Burning` (and the
`Ignited` flag raised); any other cell is left untouched. -/
def Lattice.sweepCell (L : Lattice) (i j : Nat) : Lattice × Bool :=
  match L.get i j with
  | LatticePoint.Tree =>
      if L.shouldBurn i j then (L.set i j LatticePoint.Burning, true) else (L, false)
  | _ => (L, false)

/-- The row-major visit order of the two nested loops of `Lattice::sweep`:
`(i, j)` for `i in 0..side`, `j in 0..side`. -/
def rowMajor (side : Nat) : List (Nat × Nat) :=
  (List.range side).flatMap (fun i => (List.range side).map (fun j => (i, j)))

/-- Run the sweep loop over a list of cells, threading the single shared
buffer (the lattice) and the `result` flag through the visits. -/
def sweepFrom : Lattice → Bool → List (Nat × Nat) → Lattice × Bool
  | L, b, [] => (L, b)
  | L, b, c :: rest =>
      let r := L.sweepCell c.1 c.2
      sweepFrom r.1 (b || r.2) rest

/-- Embedding of `Lattice::sweep`: one in-place row-major pass over the shared buffer;
returns `Ignited` when at least one cell was set during the pass and
`Identity` otherwise. -/
def Lattice.sweep (L : Lattice) : Lattice × SweepResult :=
  let r := sweepFrom L false (rowMajor L.side)
  (r.1, if r.2 then SweepResult.Ignited else SweepResult.Identity)

/-- Embedding of `Lattice::generate`: one independent uniform draw `draws i` per linear
index `i < n*n`; a draw below `p` gives a `Tree` (seeded `Burning` in the
first row `i < n`), otherwise the cell is `Empty`. -/
def Lattice.generate (n : Nat) (p : ℚ) (draws : Nat → ℚ) : Lattice :=
  { side := n
    current := (List.range (n * n)).map (fun i =>
      if draws i < p then
        if i < n then LatticePoint.Burning else LatticePoint.Tree
      else LatticePoint.Empty) }

/-- The trial loop `while let Ignited = lattice.sweep() { sweeps += 1 }`,
as a fuel-indexed recursion.  Returns the number of `Ignited` sweeps and
whether an `Identity` sweep was reached before the fuel ran out. -/
def runTrial : Nat → Lattice → Nat × Bool
  | 0, _ => (0, false)
  | fuel + 1, L =>
      match L.sweep with
      | (_, SweepResult.Identity) => (0, true)
      | (L1, SweepResult.Ignited) =>
          let r := runTrial fuel L1
          (r.1 + 1, r.2)

/-- Number of burning cells in a buffer. -/
def burningCount (cells : List LatticePoint) : Nat :=
  cells.countP isBurning

/-- The sweep count of one trial; fuel `length + 1` is proved sufficient
(claim C4). -/
def trialSweeps (L : Lattice) : Nat :=
  (runTrial (L.current.length + 1) L).1

/-- Iterate: `m` successive calls of `Lattice::sweep` on one lattice (the buffer
after the `m`-th call), used to state properties of sweep sequences. -/
def Lattice.sweepN : Lattice → Nat → Lattice
  | L, 0 => L
  | L, m + 1 => ((L.sweepN m).sweep).1

/-- Proof device: the buffer of a fully occupied `n × n` lattice whose
first `q` cells (row-major) are `Burning` and the rest are `Tree`. -/
def burnedUpTo (n q : Nat) : List LatticePoint :=
  (List.range (n * n)).map (fun idx =>
    if idx < q then LatticePoint.Burning else LatticePoint.Tree)

/-- One Monte Carlo trial of the driver: generate a lattice at probability
`p` and run it to its terminal sweep. -/
def trialSweepCount (n : Nat) (p : ℚ) (draws : Nat → ℚ) : Nat :=
  trialSweeps (Lattice.generate n p draws)

/-- The two-level Monte Carlo loop of `main`: for each `pidx in
0..=resolution`, the pair of `p = pidx / resolution` and the mean of
`sample_size` trial sweep counts, accumulated and divided as (exact)
field arithmetic.  `draws pidx s` is the draw sequence consumed by sample
`s` of probability point `pidx`; the indexed parallel collect of the
source is order-preserving, hence the sequential map. -/
def runExperiment (n resolution sample_size : Nat) (draws : Nat → Nat → Nat → ℚ) :
    List (ℚ × ℚ) :=
  (List.range (resolution + 1)).map (fun (pidx : Nat) =>
    ((pidx : ℚ) / (resolution : ℚ),
      ((List.range sample_size).map
        (fun s => (trialSweepCount n ((pidx : ℚ) / (resolution : ℚ)) (draws pidx s) : ℚ))).sum
        / (sample_size : ℚ)))

/-- Embedding of `main` after argument parsing: the validation checks, then the
simulation.  Returns the error-stream messages and the result records;
the function is total, modelling the clean (`Ok(())`) exit on both paths. -/
def mainRun (n resolution sample_size : Nat) (draws : Nat → Nat → Nat → ℚ) :
    List String × List (ℚ × ℚ) :=
  if n = 0 then
    (["You must set a non-zero lattice"], [])
  else if resolution ≤ 2 then
    (["The resolution must be higher than 2"], [])
  else
    ([], runExperiment n resolution sample_size draws)

/-! ### Basic properties of one visit (`sweepCell`) -/

/-- A visit either leaves the lattice and flag untouched, or it finds a
`Tree` with a burning neighbor and sets exactly that cell to `Burning`. -/
lemma sweepCell_cases (L : Lattice) (i j : Nat) :
    L.sweepCell i j = (L, false) ∨
    (L.get i j = LatticePoint.Tree ∧ L.shouldBurn i j = true ∧
      L.sweepCell i j = (L.set i j LatticePoint.Burning, true)) := by
  by_cases hg : L.get i j = LatticePoint.Tree
  · by_cases hb : L.shouldBurn i j = true
    · exact Or.inr ⟨hg, hb, by simp [Lattice.sweepCell, hg, hb]⟩
    · left
      simp [Lattice.sweepCell, hg, hb]
  · left
    cases hgv : L.get i j <;> simp [Lattice.sweepCell, hgv] <;> simp [hgv] at hg

lemma sweepCell_side (L : Lattice) (i j : Nat) : (L.sweepCell i j).1.side = L.side := by
  rcases sweepCell_cases L i j with h | ⟨_, _, h⟩ <;> simp [h, Lattice.set]

lemma sweepCell_length (L : Lattice) (i j : Nat) :
    (L.sweepCell i j).1.current.length = L.current.length := by
  rcases sweepCell_cases L i j with h | ⟨_, _, h⟩ <;> simp [h, Lattice.set]

/-- A `Tree` read through `get` is an in-range `Tree` entry (the default of
the out-of-range read is `Empty`, not `Tree`). -/
lemma get_tree_getElem? (L : Lattice) (i j : Nat) (h : L.get i j = LatticePoint.Tree) :
    L.current[latticeIndex L.side i j]? = some LatticePoint.Tree := by
  unfold Lattice.get at h
  rw [List.getD_eq_getElem?_getD] at h
  cases hx : L.current[latticeIndex L.side i j]? with
  | none => rw [hx] at h; simp [Option.getD] at h
  | some x => rw [hx] at h; simpa [Option.getD] using congrArg some h

/-- Setting a cell to `Burning` preserves every already-burning entry. -/
lemma set_burning_preserves (l : List LatticePoint) (k pos : Nat)
    (h : l[pos]? = some LatticePoint.Burning) :
    (l.set k LatticePoint.Burning)[pos]? = some LatticePoint.Burning := by
  rw [List.getElem?_set]
  by_cases hk : k = pos
  · subst hk
    by_cases hl : k < l.length
    · simp [hl]
    · rw [List.getElem?_eq_none (Nat.le_of_not_lt hl)] at h
      exact absurd h (by simp)
  · simp [hk, h]

lemma sweepCell_burning_mono (L : Lattice) (i j pos : Nat)
    (h : L.current[pos]? = some LatticePoint.Burning) :
    (L.sweepCell i j).1.current[pos]? = some LatticePoint.Burning := by
  rcases sweepCell_cases L i j with hc | ⟨_, _, hc⟩
  · simp [hc, h]
  · simp only [hc, Lattice.set]
    exact set_burning_preserves _ _ _ h

/-- Setting an in-range `Tree` entry to `Burning` increments the burning
count by exactly one. -/
lemma burningCount_set_tree (l : List LatticePoint) (k : Nat)
    (h : l[k]? = some LatticePoint.Tree) :
    burningCount (l.set k LatticePoint.Burning) = burningCount l + 1 := by
  induction l generalizing k with
  | nil => simp at h
  | cons a t ih =>
      cases k with
      | zero =>
          simp only [List.getElem?_cons_zero] at h
          cases h
          simp [burningCount, List.countP_cons, isBurning]
      | succ m =>
          simp only [List.getElem?_cons_succ] at h
          have hm := ih m h
          simp only [burningCount, List.set, List.countP_cons] at hm ⊢
          omega

lemma burningCount_sweepCell_le (L : Lattice) (i j : Nat) :
    burningCount L.current ≤ burningCount (L.sweepCell i j).1.current := by
  rcases sweepCell_cases L i j with hc | ⟨hg, _, hc⟩
  · simp [hc]
  · have := burningCount_set_tree L.current (latticeIndex L.side i j) (get_tree_getElem? L i j hg)
    simp only [hc, Lattice.set]
    omega

/-! ### Properties of the pass (`sweepFrom`) -/

lemma sweepFrom_side (cs : List (Nat × Nat)) (L : Lattice) (b : Bool) :
    (sweepFrom L b cs).1.side = L.side := by
  induction cs generalizing L b with
  | nil => rfl
  | cons c rest ih => rw [sweepFrom, ih, sweepCell_side]

lemma sweepFrom_length (cs : List (Nat × Nat)) (L : Lattice) (b : Bool) :
    (sweepFrom L b cs).1.current.length = L.current.length := by
  induction cs generalizing L b with
  | nil => rfl
  | cons c rest ih => rw [sweepFrom, ih, sweepCell_length]

lemma sweepFrom_burning_mono (cs : List (Nat × Nat)) (L : Lattice) (b : Bool) (pos : Nat)
    (h : L.current[pos]? = some LatticePoint.Burning) :
    (sweepFrom L b cs).1.current[pos]? = some LatticePoint.Burning := by
  induction cs generalizing L b with
  | nil => exact h
  | cons c rest ih => exact ih _ _ (sweepCell_burning_mono L c.1 c.2 pos h)

lemma sweepFrom_burningCount_le (cs : List (Nat × Nat)) (L : Lattice) (b : Bool) :
    burningCount L.current ≤ burningCount (sweepFrom L b cs).1.current := by
  induction cs generalizing L b with
  | nil => exact Nat.le_refl _
  | cons c rest ih =>
      exact Nat.le_trans (burningCount_sweepCell_le L c.1 c.2) (ih _ _)

lemma sweepFrom_append (cs ds : List (Nat × Nat)) (L : Lattice) (b : Bool) :
    sweepFrom L b (cs ++ ds) =
      sweepFrom (sweepFrom L b cs).1 (sweepFrom L b cs).2 ds := by
  induction cs generalizing L b with
  | nil => rfl
  | cons c rest ih => rw [List.cons_append, sweepFrom, sweepFrom, ih]

/-- The flag only accumulates: once raised it stays raised. -/
lemma sweepFrom_flag_mono (cs : List (Nat × Nat)) (L : Lattice) :
    (sweepFrom L true cs).2 = true := by
  induction cs generalizing L with
  | nil => rfl
  | cons c rest ih => rw [sweepFrom, Bool.true_or]; exact ih _

lemma sweepFrom_flag_false (cs : List (Nat × Nat)) (L : Lattice) (b : Bool)
    (h : (sweepFrom L b cs).2 = false) : b = false := by
  cases b with
  | false => rfl
  | true => rw [sweepFrom_flag_mono] at h; exact absurd h (by simp)

/-- A pass that never raises the flag leaves the lattice untouched. -/
lemma sweepFrom_false_fixed (cs : List (Nat × Nat)) (L : Lattice) (b : Bool)
    (h : (sweepFrom L b cs).2 = false) : (sweepFrom L b cs).1 = L := by
  induction cs generalizing L b with
  | nil => rfl
  | cons c rest ih =>
      rw [sweepFrom] at h ⊢
      have hb : (b || (L.sweepCell c.1 c.2).2) = false := sweepFrom_flag_false _ _ _ h
      have hc2 : (L.sweepCell c.1 c.2).2 = false := by
        cases hq : (L.sweepCell c.1 c.2).2 <;> simp [hq] at hb ⊢
      have hfix : (L.sweepCell c.1 c.2).1 = L := by
        rcases sweepCell_cases L c.1 c.2 with hcc | ⟨_, _, hcc⟩
        · rw [hcc]
        · rw [hcc] at hc2; exact absurd hc2 (by simp)
      rw [hfix] at h ⊢
      exact ih _ _ h

/-- A pass that never raises the flag found no ignitable cell at any visit. -/
lemma sweepFrom_false_no_burn (cs : List (Nat × Nat)) (L : Lattice) (b : Bool)
    (h : (sweepFrom L b cs).2 = false) :
    ∀ c ∈ cs, ¬(L.get c.1 c.2 = LatticePoint.Tree ∧ L.shouldBurn c.1 c.2 = true) := by
  induction cs generalizing L b with
  | nil => intro c hc; simp at hc
  | cons c rest ih =>
      intro e he
      rw [sweepFrom] at h
      have hb : (b || (L.sweepCell c.1 c.2).2) = false := sweepFrom_flag_false _ _ _ h
      have hc2 : (L.sweepCell c.1 c.2).2 = false := by
        cases hq : (L.sweepCell c.1 c.2).2 <;> simp [hq] at hb ⊢
      have hfix : (L.sweepCell c.1 c.2).1 = L := by
        rcases sweepCell_cases L c.1 c.2 with hcc | ⟨_, _, hcc⟩
        · rw [hcc]
        · rw [hcc] at hc2; exact absurd hc2 (by simp)
      rcases List.mem_cons.mp he with rfl | hmem
      · rintro ⟨hg, hsb⟩
        rcases sweepCell_cases L e.1 e.2 with hcc | ⟨_, _, hcc⟩
        · rw [Lattice.sweepCell, hg, hsb] at hcc
          simp at hcc
        · rw [hcc] at hc2; exact absurd hc2 (by simp)
      · rw [hfix] at h
        exact ih _ _ h e hmem

/-- A pass that raises the flag (starting unraised) strictly increases the
burning count. -/
lemma sweepFrom_true_burningCount (cs : List (Nat × Nat)) (L : Lattice)
    (h : (sweepFrom L false cs).2 = true) :
    burningCount L.current < burningCount (sweepFrom L false cs).1.current := by
  induction cs generalizing L with
  | nil => simp [sweepFrom] at h
  | cons c rest ih =>
      rw [sweepFrom] at h ⊢
      rcases sweepCell_cases L c.1 c.2 with hcc | ⟨hg, _, hcc⟩
      · rw [hcc] at h ⊢
        exact ih _ h
      · rw [hcc] at h ⊢
        have h1 : burningCount (L.set c.1 c.2 LatticePoint.Burning).current
            = burningCount L.current + 1 := by
          simpa [Lattice.set] using
            burningCount_set_tree L.current (latticeIndex L.side c.1 c.2)
              (get_tree_getElem? L c.1 c.2 hg)
        calc burningCount L.current
            < burningCount (L.set c.1 c.2 LatticePoint.Burning).current := by omega
          _ ≤ _ := sweepFrom_burningCount_le _ _ _

/-! ### The row-major visit order -/

/-- The nested loops visit exactly the cells `(k / side, k % side)` for
`k` ascending over `[0, side*side)`. -/
lemma flatMap_range_pairs (m : Nat) : ∀ (n : Nat),
    (List.range n).flatMap (fun i => (List.range m).map (fun j => (i, j))) =
    (List.range (n * m)).map (fun k => (k / m, k % m)) := by
  intro n
  induction n with
  | zero => simp
  | succ n ih =>
      rw [List.range_succ, List.flatMap_append, ih]
      have h1 : (n + 1) * m = n * m + m := by ring
      rw [h1, List.range_add, List.map_append]
      congr 1
      rw [List.flatMap_cons, List.flatMap_nil, List.append_nil, List.map_map]
      apply List.map_congr_left
      intro j hj
      rw [List.mem_range] at hj
      have hm : 0 < m := by omega
      have hdiv : (n * m + j) / m = n := by
        rw [Nat.mul_comm n m, Nat.mul_add_div hm, Nat.div_eq_of_lt hj, Nat.add_zero]
      have hmod : (n * m + j) % m = j := by
        rw [Nat.mul_comm n m, Nat.mul_add_mod, Nat.mod_eq_of_lt hj]
      simp [Function.comp, hdiv, hmod]

lemma rowMajor_eq_map (side : Nat) :
    rowMajor side =
      (List.range (side * side)).map (fun k => (k / side, k % side)) :=
  flatMap_range_pairs side side

lemma rowMajor_length (side : Nat) : (rowMajor side).length = side * side := by
  rw [rowMajor_eq_map, List.length_map, List.length_range]

lemma rowMajor_getElem? (side k : Nat) (h : k < side * side) :
    (rowMajor side)[k]? = some (k / side, k % side) := by
  rw [rowMajor_eq_map, List.getElem?_map, List.getElem?_range h]
  rfl

lemma mem_rowMajor (side i j : Nat) : (i, j) ∈ rowMajor side ↔ i < side ∧ j < side := by
  unfold rowMajor
  simp only [List.mem_flatMap, List.mem_map, List.mem_range]
  constructor
  · rintro ⟨a, ha, b, hb, heq⟩
    obtain ⟨rfl, rfl⟩ := Prod.mk.injEq .. ▸ And.intro (congrArg Prod.fst heq) (congrArg Prod.snd heq)
    exact ⟨ha, hb⟩
  · rintro ⟨hi, hj⟩
    exact ⟨i, hi, j, hj, rfl⟩

/-! ### The full sweep -/

lemma sweep_side (L : Lattice) : L.sweep.1.side = L.side :=
  sweepFrom_side _ _ _

lemma sweep_length (L : Lattice) : L.sweep.1.current.length = L.current.length :=
  sweepFrom_length _ _ _

lemma sweep_identity_iff (L : Lattice) :
    L.sweep.2 = SweepResult.Identity ↔ (sweepFrom L false (rowMajor L.side)).2 = false := by
  unfold Lattice.sweep
  cases h : (sweepFrom L false (rowMajor L.side)).2 <;> simp [h]

lemma sweep_ignited_iff (L : Lattice) :
    L.sweep.2 = SweepResult.Ignited ↔ (sweepFrom L false (rowMajor L.side)).2 = true := by
  unfold Lattice.sweep
  cases h : (sweepFrom L false (rowMajor L.side)).2 <;> simp [h]

lemma sweep_identity_fixed (L : Lattice) (h : L.sweep.2 = SweepResult.Identity) :
    L.sweep.1 = L := by
  have hf := (sweep_identity_iff L).mp h
  show (sweepFrom L false (rowMajor L.side)).1 = L
  exact sweepFrom_false_fixed _ _ _ hf

lemma sweep_ignited_burningCount (L : Lattice) (h : L.sweep.2 = SweepResult.Ignited) :
    burningCount L.current < burningCount L.sweep.1.current := by
  have hf := (sweep_ignited_iff L).mp h
  show burningCount L.current < burningCount (sweepFrom L false (rowMajor L.side)).1.current
  exact sweepFrom_true_burningCount _ _ hf

lemma sweep_burning_mono (L : Lattice) (pos : Nat)
    (h : L.current[pos]? = some LatticePoint.Burning) :
    L.sweep.1.current[pos]? = some LatticePoint.Burning :=
  sweepFrom_burning_mono _ _ _ _ h

/-! ### The trial loop -/

lemma runTrial_adequate : ∀ (fuel : Nat) (L : Lattice),
    L.current.length - burningCount L.current < fuel →
    (runTrial fuel L).2 = true ∧
    (runTrial fuel L).1 ≤ L.current.length - burningCount L.current := by
  intro fuel
  induction fuel with
  | zero => intro L h; omega
  | succ fuel ih =>
      intro L h
      rcases hs : L.sweep with ⟨L1, res⟩
      cases res with
      | Identity =>
          rw [runTrial, hs]
          exact ⟨rfl, Nat.zero_le _⟩
      | Ignited =>
          have hbc : burningCount L.current < burningCount L1.current := by
            have hb := sweep_ignited_burningCount L (by rw [hs])
            rw [hs] at hb
            exact hb
          have hlen : L1.current.length = L.current.length := by
            have hl := sweep_length L
            rw [hs] at hl
            exact hl
          have hub : burningCount L1.current ≤ L1.current.length := by
            unfold burningCount
            exact List.countP_le_length _
          obtain ⟨hflag, hcount⟩ := ih L1 (by omega)
          rw [runTrial, hs]
          show (runTrial fuel L1).2 = true ∧
            (runTrial fuel L1).1 + 1 ≤ L.current.length - burningCount L.current
          exact ⟨hflag, by omega⟩

/-! ### The fully occupied lattice: one sweep burns everything -/

lemma sweepCell_of_not_tree (L : Lattice) (i j : Nat)
    (h : L.get i j ≠ LatticePoint.Tree) : L.sweepCell i j = (L, false) := by
  rcases sweepCell_cases L i j with hc | ⟨hg, _, _⟩
  · exact hc
  · exact absurd hg h

lemma sweepCell_of_tree_burn (L : Lattice) (i j : Nat)
    (hg : L.get i j = LatticePoint.Tree) (hb : L.shouldBurn i j = true) :
    L.sweepCell i j = (L.set i j LatticePoint.Burning, true) := by
  simp [Lattice.sweepCell, hg, hb]

lemma sweepFrom_singleton (L : Lattice) (b : Bool) (c : Nat × Nat) :
    sweepFrom L b [c] = ((L.sweepCell c.1 c.2).1, b || (L.sweepCell c.1 c.2).2) := rfl

lemma burnedUpTo_length (n q : Nat) : (burnedUpTo n q).length = n * n := by
  simp [burnedUpTo]

lemma burnedUpTo_getElem? (n q k : Nat) (h : k < n * n) :
    (burnedUpTo n q)[k]? =
      some (if k < q then LatticePoint.Burning else LatticePoint.Tree) := by
  rw [burnedUpTo, List.getElem?_map, List.getElem?_range h]
  rfl

lemma burnedUpTo_get (n q i j : Nat) (hk : latticeIndex n i j < n * n) :
    (Lattice.mk n (burnedUpTo n q)).get i j =
      if latticeIndex n i j < q then LatticePoint.Burning else LatticePoint.Tree := by
  show (burnedUpTo n q).getD (latticeIndex n i j) LatticePoint.Empty = _
  rw [List.getD_eq_getElem?_getD, burnedUpTo_getElem? n q _ hk]
  rfl

lemma burnedUpTo_set (n k : Nat) (h : k < n * n) :
    (burnedUpTo n k).set k LatticePoint.Burning = burnedUpTo n (k + 1) := by
  apply List.ext_getElem?
  intro m
  rw [List.getElem?_set]
  by_cases hm : m < n * n
  · rw [burnedUpTo_getElem? n (k + 1) m hm]
    by_cases hkm : k = m
    · subst hkm
      rw [if_pos rfl, burnedUpTo_length, if_pos h, if_pos (Nat.lt_succ_self k)]
    · rw [if_neg hkm, burnedUpTo_getElem? n k m hm]
      by_cases h2 : m < k
      · rw [if_pos h2, if_pos (by omega)]
      · rw [if_neg h2, if_neg (by omega)]
  · rw [if_neg (by omega : ¬ k = m)]
    rw [List.getElem?_eq_none (by rw [burnedUpTo_length]; omega),
      List.getElem?_eq_none (by rw [burnedUpTo_length]; omega)]

/-- Invariant of the single pass over the fully occupied lattice: after the
first `k` row-major visits, exactly the first `max n k` cells are burning,
and the flag is raised as soon as a visit goes past the first row. -/
lemma full_sweep_upto (n : Nat) (hn : 0 < n) :
    ∀ k, k ≤ n * n →
    sweepFrom (Lattice.mk n (burnedUpTo n n)) false ((rowMajor n).take k) =
      (Lattice.mk n (burnedUpTo n (max n k)), decide (n < k)) := by
  intro k
  induction k with
  | zero =>
      intro _
      have h0 : max n 0 = n := by omega
      rw [List.take_zero, h0]
      have hd : decide (n < 0) = false := decide_eq_false (by omega)
      rw [hd]
      rfl
  | succ k ih =>
      intro hk1
      have hklt : k < n * n := hk1
      rw [List.take_succ, rowMajor_getElem? n k hklt]
      rw [Option.toList_some, sweepFrom_append, ih (by omega)]
      rw [sweepFrom_singleton]
      by_cases hkn : k < n
      · -- first row: the visited cell is already burning, nothing happens
        have hdiv : k / n = 0 := Nat.div_eq_of_lt hkn
        have hmod : k % n = k := Nat.mod_eq_of_lt hkn
        have hidx : latticeIndex n (k / n) (k % n) = k := by
          rw [hdiv, hmod]; simp [latticeIndex]
        have hget : (Lattice.mk n (burnedUpTo n (max n k))).get (k / n) (k % n) =
            LatticePoint.Burning := by
          rw [burnedUpTo_get n _ _ _ (by rw [hidx]; omega), hidx, if_pos (by omega)]
        rw [sweepCell_of_not_tree _ _ _ (by rw [hget]; intro h; exact absurd h (by simp))]
        have hmax : max n (k + 1) = max n k := by omega
        simp [hmax, decide_eq_false (by omega : ¬ n < k),
          decide_eq_false (by omega : ¬ n < k + 1)]
      · -- past the first row: the cell above is already burning, so ignite
        have hnk : n ≤ k := by omega
        have hmax : max n k = k := by omega
        set i := k / n with hi
        set j := k % n with hj
        have hj_lt : j < n := Nat.mod_lt k hn
        have hin : n * i + j = k := Nat.div_add_mod k n
        have hi1 : 1 ≤ i := by
          rcases Nat.eq_zero_or_pos i with h0 | h1
          · rw [h0, Nat.mul_zero, Nat.zero_add] at hin; omega
          · exact h1
        have hidx : latticeIndex n i j = k := by
          unfold latticeIndex; rw [Nat.mul_comm]; exact hin
        have hA : n ≤ i * n := by
          calc n = 1 * n := (Nat.one_mul n).symm
            _ ≤ i * n := Nat.mul_le_mul_right n hi1
        have hidx_up : latticeIndex n (i - 1) j = k - n := by
          unfold latticeIndex
          rw [Nat.sub_mul, Nat.one_mul]
          rw [Nat.mul_comm n i] at hin
          omega
        have hget : (Lattice.mk n (burnedUpTo n (max n k))).get i j =
            LatticePoint.Tree := by
          rw [burnedUpTo_get n _ _ _ (by rw [hidx]; omega), hidx, hmax, if_neg (by omega)]
        have hget_up : (Lattice.mk n (burnedUpTo n (max n k))).get (i - 1) j =
            LatticePoint.Burning := by
          rw [burnedUpTo_get n _ _ _ (by rw [hidx_up]; omega), hidx_up, hmax,
            if_pos (by omega)]
        have hsb : (Lattice.mk n (burnedUpTo n (max n k))).shouldBurn i j = true := by
          unfold Lattice.shouldBurn
          rw [hget_up]
          rw [decide_eq_true (by omega : 0 < i)]
          simp [isBurning]
        rw [sweepCell_of_tree_burn _ _ _ hget hsb]
        have hset : (Lattice.mk n (burnedUpTo n (max n k))).set i j LatticePoint.Burning =
            Lattice.mk n (burnedUpTo n (max n (k + 1))) := by
          show Lattice.mk n ((burnedUpTo n (max n k)).set (latticeIndex n i j) _) = _
          rw [hidx, hmax, burnedUpTo_set n k hklt]
          have : max n (k + 1) = k + 1 := by omega
          rw [this]
        rw [hset, Bool.or_true, decide_eq_true (by omega : n < k + 1)]

/-- One sweep of the fully occupied lattice burns every cell; it reports
`Ignited` as soon as the lattice has more than one row of cells. -/
lemma full_sweep (n : Nat) (hn : 0 < n) :
    (Lattice.mk n (burnedUpTo n n)).sweep =
      (Lattice.mk n (burnedUpTo n (n * n)),
        if n < n * n then SweepResult.Ignited else SweepResult.Identity) := by
  have h := full_sweep_upto n hn (n * n) (Nat.le_refl _)
  have htake : (rowMajor n).take (n * n) = rowMajor n := by
    rw [← rowMajor_length n]
    exact List.take_length _
  rw [htake] at h
  show (let r := sweepFrom (Lattice.mk n (burnedUpTo n n)) false (rowMajor n)
    (r.1, if r.2 then SweepResult.Ignited else SweepResult.Identity)) = _
  rw [h]
  have hmax : max n (n * n) = n * n := Nat.max_eq_right (Nat.le_mul_of_pos_left n hn)
  rw [hmax]
  by_cases hlt : n < n * n
  · simp [hlt]
  · simp [hlt]

/-- A lattice containing no `Tree` is a fixed point of `sweep`, and the
sweep reports `Identity`. -/
lemma sweep_no_tree (L : Lattice) (h : ∀ i j, L.get i j ≠ LatticePoint.Tree) :
    L.sweep = (L, SweepResult.Identity) := by
  have hs : ∀ (cs : List (Nat × Nat)) (b : Bool), sweepFrom L b cs = (L, b) := by
    intro cs
    induction cs with
    | nil => intro b; rfl
    | cons c rest ih =>
        intro b
        rw [sweepFrom, sweepCell_of_not_tree L c.1 c.2 (h c.1 c.2)]
        show sweepFrom L (b || false) rest = (L, b)
        rw [Bool.or_false]
        exact ih b
  show (let r := sweepFrom L false (rowMajor L.side)
    (r.1, if r.2 then SweepResult.Ignited else SweepResult.Identity)) = _
  rw [hs]
  rfl

lemma allBurning_no_tree (n : Nat) :
    ∀ i j, (Lattice.mk n (burnedUpTo n (n * n))).get i j ≠ LatticePoint.Tree := by
  intro i j
  show (burnedUpTo n (n * n)).getD (latticeIndex n i j) LatticePoint.Empty ≠ _
  rw [List.getD_eq_getElem?_getD]
  by_cases h : latticeIndex n i j < n * n
  · rw [burnedUpTo_getElem? n _ _ h, if_pos h]
    simp
  · rw [List.getElem?_eq_none (by rw [burnedUpTo_length]; omega)]
    simp

/-! ### Deterministic trials at the extreme probabilities -/

/-- With `p = 1`, every draw in `[0, 1)` is below `p`: the generated
lattice is fully occupied, with row 0 burning and everything else trees. -/
lemma generate_one (n : Nat) (draws : Nat → ℚ) (h : ∀ i, draws i < 1) :
    Lattice.generate n 1 draws = Lattice.mk n (burnedUpTo n n) := by
  unfold Lattice.generate burnedUpTo
  congr 1
  apply List.map_congr_left
  intro i hi
  rw [if_pos (h i)]

/-- With `p = 0`, no nonnegative draw is below `p`: every generated cell
is `Empty`. -/
lemma generate_zero (n : Nat) (draws : Nat → ℚ) (h : ∀ i, 0 ≤ draws i) :
    Lattice.generate n 0 draws =
      Lattice.mk n ((List.range (n * n)).map (fun _ => LatticePoint.Empty)) := by
  unfold Lattice.generate
  congr 1
  apply List.map_congr_left
  intro i hi
  rw [if_neg (by exact not_lt.mpr (h i))]

lemma allEmpty_no_tree (n : Nat) :
    ∀ i j, (Lattice.mk n ((List.range (n * n)).map (fun _ => LatticePoint.Empty))).get i j ≠
      LatticePoint.Tree := by
  intro i j
  show (((List.range (n * n)).map (fun _ => LatticePoint.Empty)).getD
    (latticeIndex n i j) LatticePoint.Empty) ≠ _
  rw [List.getD_eq_getElem?_getD, List.getElem?_map]
  cases h : (List.range (n * n))[latticeIndex n i j]? <;> simp

/-- A lattice with no trees terminates with sweep count `0`. -/
lemma trialSweeps_no_tree (L : Lattice) (h : ∀ i j, L.get i j ≠ LatticePoint.Tree) :
    trialSweeps L = 0 := by
  unfold trialSweeps
  rw [runTrial, sweep_no_tree L h]

/-- A fully occupied lattice with at least two rows terminates with sweep
count exactly `1`: the first sweep cascades over the whole grid, the second
finds nothing to do. -/
lemma trialSweeps_full (n : Nat) (hn : 2 ≤ n) :
    trialSweeps (Lattice.mk n (burnedUpTo n n)) = 1 := by
  have hnn : n < n * n := by nlinarith
  have h1 : (Lattice.mk n (burnedUpTo n n)).sweep =
      (Lattice.mk n (burnedUpTo n (n * n)), SweepResult.Ignited) := by
    rw [full_sweep n (by omega), if_pos hnn]
  have h2 : (Lattice.mk n (burnedUpTo n (n * n))).sweep =
      (Lattice.mk n (burnedUpTo n (n * n)), SweepResult.Identity) :=
    sweep_no_tree _ (allBurning_no_tree n)
  unfold trialSweeps
  have hlen : (Lattice.mk n (burnedUpTo n n)).current.length = n * n :=
    burnedUpTo_length n n
  rw [hlen]
  have hfuel : n * n + 1 = (n * n - 1) + 1 + 1 := by
    have : 4 ≤ n * n := by
      calc 4 = 2 * 2 := rfl
        _ ≤ n * n := Nat.mul_le_mul hn hn
    omega
  rw [hfuel, runTrial, h1]
  show (runTrial ((n * n - 1) + 1) (Lattice.mk n (burnedUpTo n (n * n)))).1 + 1 = 1
  rw [runTrial, h2]

/-- A one-cell fully occupied lattice is already terminal. -/
lemma trialSweeps_one : trialSweeps (Lattice.mk 1 (burnedUpTo 1 1)) = 0 := by
  decide

/-! ### Remaining helpers -/

lemma isBurning_iff (c : LatticePoint) : isBurning c = true ↔ c = LatticePoint.Burning := by
  cases c <;> simp [isBurning]

/-- The `should_burn` condition, in propositional form: some in-grid
4-connected orthogonal neighbor is burning. -/
lemma shouldBurn_iff (L : Lattice) (i j : Nat) :
    L.shouldBurn i j = true ↔
      ((0 < i ∧ L.get (i - 1) j = LatticePoint.Burning) ∨
       (i < L.side - 1 ∧ L.get (i + 1) j = LatticePoint.Burning) ∨
       (0 < j ∧ L.get i (j - 1) = LatticePoint.Burning) ∨
       (j < L.side - 1 ∧ L.get i (j + 1) = LatticePoint.Burning)) := by
  unfold Lattice.shouldBurn
  simp only [Bool.or_eq_true, Bool.and_eq_true, decide_eq_true_eq, isBurning_iff]
  tauto

/-- In-range row/column pairs map to in-range flat indices. -/
lemma latticeIndex_lt (side i j : Nat) (hi : i < side) (hj : j < side) :
    latticeIndex side i j < side * side := by
  unfold latticeIndex
  calc i * side + j < i * side + side := by omega
    _ = (i + 1) * side := by ring
    _ ≤ side * side := Nat.mul_le_mul_right side hi

lemma getElem?_isSome_of_lt {α : Type} (l : List α) (k : Nat) (hk : k < l.length) :
    (l[k]?).isSome := by
  rw [List.getElem?_eq_getElem hk]
  rfl

/-- Unrolling one visit of the pass: the state before visiting the cell at
row-major position `k + 1` is the state before position `k` updated by the
visit of cell `(k / side, k % side)`. -/
lemma sweepFrom_take_succ (L : Lattice) (k : Nat) (hk : k < L.side * L.side) :
    sweepFrom L false ((rowMajor L.side).take (k + 1)) =
      ((((sweepFrom L false ((rowMajor L.side).take k)).1.sweepCell
          (k / L.side) (k % L.side)).1),
        (sweepFrom L false ((rowMajor L.side).take k)).2 ||
          ((sweepFrom L false ((rowMajor L.side).take k)).1.sweepCell
            (k / L.side) (k % L.side)).2) := by
  rw [List.take_succ, rowMajor_getElem? _ _ hk, Option.toList_some, sweepFrom_append,
    sweepFrom_singleton]

/-! ### The claims -/

/-- C3: across any sequence of `sweep` calls on one lattice, the set of
burning cell indices is monotonically non-decreasing — a cell that is
`Burning` before the sweeps is still `Burning` after them. -/
theorem claim_C3 (L : Lattice) (m pos : Nat)
    (h : L.current[pos]? = some LatticePoint.Burning) :
    (L.sweepN m).current[pos]? = some LatticePoint.Burning := by
  induction m with
  | zero => exact h
  | succ m ih =>
      show ((L.sweepN m).sweep).1.current[pos]? = _
      exact sweep_burning_mono _ _ ih

/-- C3 witness at a concrete lattice. -/
theorem claim_C3_witness :
    (Lattice.mk 2 [LatticePoint.Burning, LatticePoint.Tree, LatticePoint.Tree,
      LatticePoint.Tree]).current[0]? = some LatticePoint.Burning ∧
    ((Lattice.mk 2 [LatticePoint.Burning, LatticePoint.Tree, LatticePoint.Tree,
      LatticePoint.Tree]).sweepN 3).current[0]? = some LatticePoint.Burning :=
  ⟨by decide, claim_C3 _ 3 0 (by decide)⟩

/-- C4: the trial loop terminates — every `Ignited` sweep strictly grows
the burning set, the loop reaches `Identity` within the fuel
`length + 1`, and the recorded sweep count is at most `n * n`. -/
theorem claim_C4 (L : Lattice) (h : L.current.length = L.side * L.side) :
    (L.sweep.2 = SweepResult.Ignited →
      burningCount L.current < burningCount L.sweep.1.current) ∧
    (runTrial (L.current.length + 1) L).2 = true ∧
    trialSweeps L ≤ L.side * L.side := by
  obtain ⟨hflag, hcount⟩ := runTrial_adequate (L.current.length + 1) L (by omega)
  refine ⟨fun hi => sweep_ignited_burningCount L hi, hflag, ?_⟩
  unfold trialSweeps
  omega

/-- C4 witness at a concrete lattice. -/
theorem claim_C4_witness :
    (Lattice.mk 2 [LatticePoint.Burning, LatticePoint.Tree, LatticePoint.Tree,
      LatticePoint.Tree]).current.length =
      (Lattice.mk 2 [LatticePoint.Burning, LatticePoint.Tree, LatticePoint.Tree,
        LatticePoint.Tree]).side *
      (Lattice.mk 2 [LatticePoint.Burning, LatticePoint.Tree, LatticePoint.Tree,
        LatticePoint.Tree]).side ∧
    (((Lattice.mk 2 [LatticePoint.Burning, LatticePoint.Tree, LatticePoint.Tree,
        LatticePoint.Tree]).sweep.2 = SweepResult.Ignited →
      burningCount (Lattice.mk 2 [LatticePoint.Burning, LatticePoint.Tree,
        LatticePoint.Tree, LatticePoint.Tree]).current <
        burningCount (Lattice.mk 2 [LatticePoint.Burning, LatticePoint.Tree,
          LatticePoint.Tree, LatticePoint.Tree]).sweep.1.current) ∧
    (runTrial ((Lattice.mk 2 [LatticePoint.Burning, LatticePoint.Tree, LatticePoint.Tree,
      LatticePoint.Tree]).current.length + 1)
      (Lattice.mk 2 [LatticePoint.Burning, LatticePoint.Tree, LatticePoint.Tree,
        LatticePoint.Tree])).2 = true ∧
    trialSweeps (Lattice.mk 2 [LatticePoint.Burning, LatticePoint.Tree, LatticePoint.Tree,
      LatticePoint.Tree]) ≤
      (Lattice.mk 2 [LatticePoint.Burning, LatticePoint.Tree, LatticePoint.Tree,
        LatticePoint.Tree]).side *
      (Lattice.mk 2 [LatticePoint.Burning, LatticePoint.Tree, LatticePoint.Tree,
        LatticePoint.Tree]).side) :=
  ⟨by decide, claim_C4 _ (by decide)⟩

/-- C5: `generate n p draws` yields side `n`, exactly `n * n` cells, and
cell `i` is `Burning` when `draws i < p` and `i < n`, `Tree` when
`draws i < p` and `n ≤ i`, and `Empty` when `p ≤ draws i`. -/
theorem claim_C5 (n : Nat) (p : ℚ) (draws : Nat → ℚ) (i : Nat) (hi : i < n * n) :
    (Lattice.generate n p draws).side = n ∧
    (Lattice.generate n p draws).current.length = n * n ∧
    (Lattice.generate n p draws).current[i]? =
      some (if draws i < p then
              (if i < n then LatticePoint.Burning else LatticePoint.Tree)
            else LatticePoint.Empty) := by
  refine ⟨rfl, by simp [Lattice.generate], ?_⟩
  show ((List.range (n * n)).map _)[i]? = _
  rw [List.getElem?_map, List.getElem?_range hi]
  rfl

/-- C5 witness at a concrete generation. -/
theorem claim_C5_witness :
    2 < 2 * 2 ∧
    ((Lattice.generate 2 (1 / 2) (fun u => (u : ℚ) / 4)).side = 2 ∧
    (Lattice.generate 2 (1 / 2) (fun u => (u : ℚ) / 4)).current.length = 2 * 2 ∧
    (Lattice.generate 2 (1 / 2) (fun u => (u : ℚ) / 4)).current[2]? =
      some (if ((2 : Nat) : ℚ) / 4 < 1 / 2 then
              (if 2 < 2 then LatticePoint.Burning else LatticePoint.Tree)
            else LatticePoint.Empty)) :=
  ⟨by decide, claim_C5 2 (1 / 2) (fun u => (u : ℚ) / 4) 2 (by decide)⟩

/-- C9: `n == 0` or `resolution ≤ 2` yields a message on the error stream
and no result records (the run is total, a clean exit); otherwise the error
stream is empty and exactly `resolution + 1` records are produced — never a
partial result. -/
theorem claim_C9 (n resolution sample_size : Nat) (draws : Nat → Nat → Nat → ℚ) :
    (n = 0 ∨ resolution ≤ 2 →
      (mainRun n resolution sample_size draws).2 = [] ∧
      (mainRun n resolution sample_size draws).1 ≠ []) ∧
    (n ≠ 0 → 2 < resolution →
      (mainRun n resolution sample_size draws).1 = [] ∧
      (mainRun n resolution sample_size draws).2.length = resolution + 1) := by
  constructor
  · rintro (rfl | hres)
    · simp [mainRun]
    · by_cases hn : n = 0
      · simp [mainRun, hn]
      · simp [mainRun, hn, hres]
  · intro hn hres
    rw [mainRun, if_neg hn, if_neg (by omega)]
    refine ⟨rfl, ?_⟩
    simp [runExperiment]

/-- C9 witness at concrete arguments. -/
theorem claim_C9_witness :
    ((0 : Nat) = 0 ∨ (5 : Nat) ≤ 2 →
      (mainRun 0 5 3 (fun _ _ _ => 0)).2 = [] ∧
      (mainRun 0 5 3 (fun _ _ _ => 0)).1 ≠ []) ∧
    ((0 : Nat) ≠ 0 → 2 < 5 →
      (mainRun 0 5 3 (fun _ _ _ => 0)).1 = [] ∧
      (mainRun 0 5 3 (fun _ _ _ => 0)).2.length = 5 + 1) :=
  claim_C9 0 5 3 (fun _ _ _ => 0)

/-- C10: under the length invariant, the flat index of every in-grid cell
is in bounds, and each neighbor access of `sweep` is guarded into bounds,
so no access reaches the out-of-bounds branch. -/
theorem claim_C10 (L : Lattice) (i j : Nat)
    (hlen : L.current.length = L.side * L.side)
    (hi : i < L.side) (hj : j < L.side) :
    latticeIndex L.side i j < L.current.length ∧
    (L.current[latticeIndex L.side i j]?).isSome ∧
    (0 < i → (L.current[latticeIndex L.side (i - 1) j]?).isSome) ∧
    (i < L.side - 1 → (L.current[latticeIndex L.side (i + 1) j]?).isSome) ∧
    (0 < j → (L.current[latticeIndex L.side i (j - 1)]?).isSome) ∧
    (j < L.side - 1 → (L.current[latticeIndex L.side i (j + 1)]?).isSome) := by
  have hmain : latticeIndex L.side i j < L.current.length := by
    rw [hlen]; exact latticeIndex_lt _ _ _ hi hj
  refine ⟨hmain, getElem?_isSome_of_lt _ _ hmain, ?_, ?_, ?_, ?_⟩
  · intro h0
    refine getElem?_isSome_of_lt _ _ ?_
    rw [hlen]; exact latticeIndex_lt _ _ _ (by omega) hj
  · intro h0
    refine getElem?_isSome_of_lt _ _ ?_
    rw [hlen]; exact latticeIndex_lt _ _ _ (by omega) hj
  · intro h0
    refine getElem?_isSome_of_lt _ _ ?_
    rw [hlen]; exact latticeIndex_lt _ _ _ hi (by omega)
  · intro h0
    refine getElem?_isSome_of_lt _ _ ?_
    rw [hlen]; exact latticeIndex_lt _ _ _ hi (by omega)

/-- C10 witness at a concrete lattice and cell. -/
theorem claim_C10_witness :
    ((Lattice.mk 2 [LatticePoint.Burning, LatticePoint.Tree, LatticePoint.Tree,
      LatticePoint.Tree]).current.length = 2 * 2 ∧ (1 : Nat) < 2 ∧ (0 : Nat) < 2) ∧
    (latticeIndex 2 1 0 < 4 ∧
    ((Lattice.mk 2 [LatticePoint.Burning, LatticePoint.Tree, LatticePoint.Tree,
      LatticePoint.Tree]).current[latticeIndex 2 1 0]?).isSome ∧
    (0 < 1 → ((Lattice.mk 2 [LatticePoint.Burning, LatticePoint.Tree, LatticePoint.Tree,
      LatticePoint.Tree]).current[latticeIndex 2 0 0]?).isSome) ∧
    ((1 : Nat) < 2 - 1 → ((Lattice.mk 2 [LatticePoint.Burning, LatticePoint.Tree,
      LatticePoint.Tree, LatticePoint.Tree]).current[latticeIndex 2 2 0]?).isSome) ∧
    (0 < 0 → ((Lattice.mk 2 [LatticePoint.Burning, LatticePoint.Tree, LatticePoint.Tree,
      LatticePoint.Tree]).current[latticeIndex 2 1 0]?).isSome) ∧
    ((0 : Nat) < 2 - 1 → ((Lattice.mk 2 [LatticePoint.Burning, LatticePoint.Tree,
      LatticePoint.Tree, LatticePoint.Tree]).current[latticeIndex 2 1 1]?).isSome)) :=
  ⟨⟨by decide, by decide, by decide⟩,
    claim_C10 (Lattice.mk 2 [LatticePoint.Burning, LatticePoint.Tree, LatticePoint.Tree,
      LatticePoint.Tree]) 1 0 (by decide) (by decide) (by decide)⟩

/-- C2: with `p = 1` and draws in `[0,1)`, generation is deterministic —
row 0 all `Burning`, every other row all `Tree` — and the trial sweep count
is deterministic: `0` for `n = 1`, and exactly `1` for every `n ≥ 2`
(including `n = 3`), because the single-buffer in-place pass cascades the
fire across the whole grid within one sweep. -/
theorem claim_C2 (n : Nat) (draws : Nat → ℚ)
    (h : ∀ i, 0 ≤ draws i ∧ draws i < 1) :
    (∀ i, i < n * n →
      (Lattice.generate n 1 draws).current[i]? =
        some (if i < n then LatticePoint.Burning else LatticePoint.Tree)) ∧
    (n = 1 → trialSweeps (Lattice.generate n 1 draws) = 0) ∧
    (2 ≤ n → trialSweeps (Lattice.generate n 1 draws) = 1) := by
  have hg := generate_one n draws (fun i => (h i).2)
  refine ⟨?_, ?_, ?_⟩
  · intro i hi
    rw [hg]
    show (burnedUpTo n n)[i]? = _
    rw [burnedUpTo_getElem? n n i hi]
  · rintro rfl
    rw [hg]
    exact trialSweeps_one
  · intro hn
    rw [hg]
    exact trialSweeps_full n hn

/-- C2 witness at `n = 3` with the constant draw `0`. -/
theorem claim_C2_witness :
    (∀ i : Nat, 0 ≤ (0 : ℚ) ∧ (0 : ℚ) < 1) ∧
    ((∀ i, i < 3 * 3 →
      (Lattice.generate 3 1 (fun _ => 0)).current[i]? =
        some (if i < 3 then LatticePoint.Burning else LatticePoint.Tree)) ∧
    ((3 : Nat) = 1 → trialSweeps (Lattice.generate 3 1 (fun _ => 0)) = 0) ∧
    (2 ≤ 3 → trialSweeps (Lattice.generate 3 1 (fun _ => 0)) = 1)) :=
  ⟨fun _ => ⟨le_refl 0, by norm_num⟩,
    claim_C2 3 (fun _ => 0) (fun _ => ⟨le_refl 0, by norm_num⟩)⟩

/-- C7: `sweep` returns `Ignited` exactly when the pass changed the state;
on `Identity` the state is unchanged, no `Tree` cell has a burning in-grid
orthogonal neighbor, and every further sweep is an `Identity` no-op. -/
theorem claim_C7 (L : Lattice) :
    (L.sweep.2 = SweepResult.Ignited ↔ L.sweep.1 ≠ L) ∧
    (L.sweep.2 = SweepResult.Identity →
      L.sweep.1 = L ∧
      (∀ i j, i < L.side → j < L.side →
        ¬(L.get i j = LatticePoint.Tree ∧ L.shouldBurn i j = true)) ∧
      (∀ m, L.sweepN m = L ∧ (L.sweepN m).sweep.2 = SweepResult.Identity)) := by
  have hdicho : L.sweep.2 = SweepResult.Ignited ∨ L.sweep.2 = SweepResult.Identity := by
    cases h : L.sweep.2
    · exact Or.inr rfl
    · exact Or.inl rfl
  constructor
  · constructor
    · intro hig heq
      have hlt := sweep_ignited_burningCount L hig
      rw [heq] at hlt
      omega
    · intro hne
      rcases hdicho with hig | hid
      · exact hig
      · exact absurd (sweep_identity_fixed L hid) hne
  · intro hid
    have hfix := sweep_identity_fixed L hid
    have hflag := (sweep_identity_iff L).mp hid
    refine ⟨hfix, ?_, ?_⟩
    · intro i j hi hj
      exact sweepFrom_false_no_burn _ _ _ hflag (i, j)
        ((mem_rowMajor L.side i j).mpr ⟨hi, hj⟩)
    · intro m
      induction m with
      | zero => exact ⟨rfl, hid⟩
      | succ m ih =>
          have h1 : L.sweepN (m + 1) = L := by
            show ((L.sweepN m).sweep).1 = L
            rw [ih.1]
            exact hfix
          exact ⟨h1, by rw [h1]; exact hid⟩

/-- C7 witness at a concrete terminal lattice. -/
theorem claim_C7_witness :
    ((Lattice.mk 1 [LatticePoint.Burning]).sweep.2 = SweepResult.Ignited ↔
      (Lattice.mk 1 [LatticePoint.Burning]).sweep.1 ≠
        Lattice.mk 1 [LatticePoint.Burning]) ∧
    ((Lattice.mk 1 [LatticePoint.Burning]).sweep.2 = SweepResult.Identity →
      (Lattice.mk 1 [LatticePoint.Burning]).sweep.1 =
        Lattice.mk 1 [LatticePoint.Burning] ∧
      (∀ i j, i < (Lattice.mk 1 [LatticePoint.Burning]).side →
        j < (Lattice.mk 1 [LatticePoint.Burning]).side →
        ¬((Lattice.mk 1 [LatticePoint.Burning]).get i j = LatticePoint.Tree ∧
          (Lattice.mk 1 [LatticePoint.Burning]).shouldBurn i j = true)) ∧
      (∀ m, (Lattice.mk 1 [LatticePoint.Burning]).sweepN m =
          Lattice.mk 1 [LatticePoint.Burning] ∧
        ((Lattice.mk 1 [LatticePoint.Burning]).sweepN m).sweep.2 =
          SweepResult.Identity)) :=
  claim_C7 (Lattice.mk 1 [LatticePoint.Burning])

/-- C8: with `p = 0` and nonnegative draws, every generated cell is
`Empty`, every trial's sweep count is `0`, and the record for the first
probability point (`p = 0`) is exactly `(0, 0)`. -/
theorem claim_C8 (n resolution sample_size : Nat) (d : Nat → ℚ)
    (draws : Nat → Nat → Nat → ℚ)
    (hd : ∀ i, 0 ≤ d i) (hdraws : ∀ pidx s i, 0 ≤ draws pidx s i) :
    (∀ i, i < n * n →
      (Lattice.generate n 0 d).current[i]? = some LatticePoint.Empty) ∧
    trialSweeps (Lattice.generate n 0 d) = 0 ∧
    (runExperiment n resolution sample_size draws)[0]? = some (0, 0) := by
  refine ⟨?_, ?_, ?_⟩
  · intro i hi
    rw [generate_zero n d hd]
    show ((List.range (n * n)).map _)[i]? = _
    rw [List.getElem?_map, List.getElem?_range hi]
    rfl
  · rw [generate_zero n d hd]
    exact trialSweeps_no_tree _ (allEmpty_no_tree n)
  · unfold runExperiment
    rw [List.getElem?_map, List.getElem?_range (by omega : 0 < resolution + 1)]
    have htc : ∀ s, trialSweepCount n (0 : ℚ) (draws 0 s) = 0 := by
      intro s
      unfold trialSweepCount
      rw [generate_zero n _ (hdraws 0 s)]
      exact trialSweeps_no_tree _ (allEmpty_no_tree n)
    simp [htc]

/-- C8 witness at concrete parameters with all-zero draw sequences. -/
theorem claim_C8_witness :
    (∀ i : Nat, 0 ≤ (0 : ℚ)) ∧ (∀ pidx s i : Nat, 0 ≤ (0 : ℚ)) ∧
    ((∀ i, i < 2 * 2 →
      (Lattice.generate 2 0 (fun _ => 0)).current[i]? = some LatticePoint.Empty) ∧
    trialSweeps (Lattice.generate 2 0 (fun _ => 0)) = 0 ∧
    (runExperiment 2 3 2 (fun _ _ _ => 0))[0]? = some (0, 0)) :=
  ⟨fun _ => le_refl 0, fun _ _ _ => le_refl 0,
    claim_C8 2 3 2 (fun _ => 0) (fun _ _ _ => 0)
      (fun _ => le_refl 0) (fun _ _ _ => le_refl 0)⟩

/-- C1: the sweep visits the cells in row-major order over one shared
buffer; at the moment cell `(k / side, k % side)` is visited — i.e. after
the first `k` visits have already mutated the buffer — a `Tree` becomes
`Burning` exactly when at least one in-grid 4-connected orthogonal
neighbor is `Burning` in the current (partially updated) buffer, and only
that cell is written, so a cell ignited earlier in the pass can ignite
cells visited later; a cell not holding `Tree` at its visit (`Empty` or
already `Burning`) leaves the buffer untouched. -/
theorem claim_C1 (L : Lattice) (k : Nat) (hk : k < L.side * L.side) :
    (rowMajor L.side).length = L.side * L.side ∧
    (rowMajor L.side)[k]? = some (k / L.side, k % L.side) ∧
    L.sweep = ((sweepFrom L false (rowMajor L.side)).1,
      if (sweepFrom L false (rowMajor L.side)).2 then SweepResult.Ignited
      else SweepResult.Identity) ∧
    ((sweepFrom L false ((rowMajor L.side).take k)).1.shouldBurn
        (k / L.side) (k % L.side) = true ↔
      ((0 < k / L.side ∧
          (sweepFrom L false ((rowMajor L.side).take k)).1.get
            (k / L.side - 1) (k % L.side) = LatticePoint.Burning) ∨
       (k / L.side < (sweepFrom L false ((rowMajor L.side).take k)).1.side - 1 ∧
          (sweepFrom L false ((rowMajor L.side).take k)).1.get
            (k / L.side + 1) (k % L.side) = LatticePoint.Burning) ∨
       (0 < k % L.side ∧
          (sweepFrom L false ((rowMajor L.side).take k)).1.get
            (k / L.side) (k % L.side - 1) = LatticePoint.Burning) ∨
       (k % L.side < (sweepFrom L false ((rowMajor L.side).take k)).1.side - 1 ∧
          (sweepFrom L false ((rowMajor L.side).take k)).1.get
            (k / L.side) (k % L.side + 1) = LatticePoint.Burning))) ∧
    ((sweepFrom L false ((rowMajor L.side).take k)).1.get (k / L.side) (k % L.side) =
        LatticePoint.Tree →
      (sweepFrom L false ((rowMajor L.side).take (k + 1))).1 =
        (if (sweepFrom L false ((rowMajor L.side).take k)).1.shouldBurn
            (k / L.side) (k % L.side)
         then (sweepFrom L false ((rowMajor L.side).take k)).1.set
            (k / L.side) (k % L.side) LatticePoint.Burning
         else (sweepFrom L false ((rowMajor L.side).take k)).1)) ∧
    ((sweepFrom L false ((rowMajor L.side).take k)).1.get (k / L.side) (k % L.side) ≠
        LatticePoint.Tree →
      (sweepFrom L false ((rowMajor L.side).take (k + 1))).1 =
        (sweepFrom L false ((rowMajor L.side).take k)).1) := by
  refine ⟨rowMajor_length _, rowMajor_getElem? _ _ hk, rfl, shouldBurn_iff _ _ _, ?_, ?_⟩
  · intro hg
    rw [sweepFrom_take_succ L k hk]
    by_cases hb : (sweepFrom L false ((rowMajor L.side).take k)).1.shouldBurn
        (k / L.side) (k % L.side) = true
    · rw [sweepCell_of_tree_burn _ _ _ hg hb, if_pos hb]
    · rcases sweepCell_cases (sweepFrom L false ((rowMajor L.side).take k)).1
        (k / L.side) (k % L.side) with hc | ⟨_, hb2, _⟩
      · rw [hc, if_neg hb]
      · exact absurd hb2 hb
  · intro hg
    rw [sweepFrom_take_succ L k hk, sweepCell_of_not_tree _ _ _ hg]

/-- C1 witness: in a `2 × 2` lattice with only the top-left cell burning,
the visit of cell `(0,1)` (row-major position `1`) sees the already
updated buffer and ignites from its left neighbor. -/
theorem claim_C1_witness :
    1 < 2 * 2 ∧
    ((rowMajor 2).length = 2 * 2 ∧
    (rowMajor 2)[1]? = some (0, 1) ∧
    (Lattice.mk 2 [LatticePoint.Burning, LatticePoint.Tree, LatticePoint.Tree,
        LatticePoint.Tree]).sweep =
      (Lattice.mk 2 [LatticePoint.Burning, LatticePoint.Burning, LatticePoint.Burning,
        LatticePoint.Burning], SweepResult.Ignited) ∧
    ((Lattice.mk 2 [LatticePoint.Burning, LatticePoint.Tree, LatticePoint.Tree,
        LatticePoint.Tree]).shouldBurn 0 1 = true ↔
      ((0 < 0 ∧ (Lattice.mk 2 [LatticePoint.Burning, LatticePoint.Tree, LatticePoint.Tree,
          LatticePoint.Tree]).get 0 1 = LatticePoint.Burning) ∨
       (0 < 1 ∧ (Lattice.mk 2 [LatticePoint.Burning, LatticePoint.Tree, LatticePoint.Tree,
          LatticePoint.Tree]).get 1 1 = LatticePoint.Burning) ∨
       (0 < 1 ∧ (Lattice.mk 2 [LatticePoint.Burning, LatticePoint.Tree, LatticePoint.Tree,
          LatticePoint.Tree]).get 0 0 = LatticePoint.Burning) ∨
       (1 < 1 ∧ (Lattice.mk 2 [LatticePoint.Burning, LatticePoint.Tree, LatticePoint.Tree,
          LatticePoint.Tree]).get 0 2 = LatticePoint.Burning))) ∧
    ((Lattice.mk 2 [LatticePoint.Burning, LatticePoint.Tree, LatticePoint.Tree,
        LatticePoint.Tree]).get 0 1 = LatticePoint.Tree →
      Lattice.mk 2 [LatticePoint.Burning, LatticePoint.Burning, LatticePoint.Tree,
          LatticePoint.Tree] =
        (if (Lattice.mk 2 [LatticePoint.Burning, LatticePoint.Tree, LatticePoint.Tree,
            LatticePoint.Tree]).shouldBurn 0 1
         then (Lattice.mk 2 [LatticePoint.Burning, LatticePoint.Tree, LatticePoint.Tree,
            LatticePoint.Tree]).set 0 1 LatticePoint.Burning
         else Lattice.mk 2 [LatticePoint.Burning, LatticePoint.Tree, LatticePoint.Tree,
            LatticePoint.Tree])) ∧
    ((Lattice.mk 2 [LatticePoint.Burning, LatticePoint.Tree, LatticePoint.Tree,
        LatticePoint.Tree]).get 0 1 ≠ LatticePoint.Tree →
      Lattice.mk 2 [LatticePoint.Burning, LatticePoint.Burning, LatticePoint.Tree,
          LatticePoint.Tree] =
        Lattice.mk 2 [LatticePoint.Burning, LatticePoint.Tree, LatticePoint.Tree,
          LatticePoint.Tree])) :=
  ⟨by decide,
    claim_C1 (Lattice.mk 2 [LatticePoint.Burning, LatticePoint.Tree, LatticePoint.Tree,
      LatticePoint.Tree]) 1 (by decide)⟩

/-- C6: for valid inputs the driver yields exactly `resolution + 1`
records, record `k` holding `p = k / resolution` and the floating-point
mean of the `sample_size` trial sweep counts, in strictly ascending `p`
order (the embedding is the order-preserving indexed collect of the
source's parallel loop). -/
theorem claim_C6 (n resolution sample_size : Nat) (draws : Nat → Nat → Nat → ℚ)
    (hn : 0 < n) (hres : 2 < resolution) (k : Nat) (hk : k ≤ resolution) :
    (runExperiment n resolution sample_size draws).length = resolution + 1 ∧
    (runExperiment n resolution sample_size draws)[k]? =
      some ((k : ℚ) / (resolution : ℚ),
        ((List.range sample_size).map
          (fun s => (trialSweepCount n ((k : ℚ) / (resolution : ℚ)) (draws k s) : ℚ))).sum
          / (sample_size : ℚ)) ∧
    List.Pairwise (fun a b => a.1 < b.1)
      (runExperiment n resolution sample_size draws) := by
  refine ⟨by simp [runExperiment], ?_, ?_⟩
  · unfold runExperiment
    rw [List.getElem?_map, List.getElem?_range (by omega)]
    rfl
  · unfold runExperiment
    rw [List.pairwise_map]
    apply List.Pairwise.imp ?_ (List.pairwise_lt_range (resolution + 1))
    intro a b hab
    have hc : (0 : ℚ) < (resolution : ℚ) := by
      exact_mod_cast (by omega : 0 < resolution)
    exact (div_lt_div_right hc).mpr (by exact_mod_cast hab)

/-- C6 witness at concrete parameters. -/
theorem claim_C6_witness :
    (0 < 1 ∧ 2 < 3 ∧ 2 ≤ 3) ∧
    ((runExperiment 1 3 2 (fun _ _ _ => 0)).length = 3 + 1 ∧
    (runExperiment 1 3 2 (fun _ _ _ => 0))[2]? =
      some (((2 : Nat) : ℚ) / ((3 : Nat) : ℚ),
        ((List.range 2).map
          (fun s => (trialSweepCount 1 (((2 : Nat) : ℚ) / ((3 : Nat) : ℚ))
            ((fun _ _ _ => (0 : ℚ)) 2 s) : ℚ))).sum / ((2 : Nat) : ℚ)) ∧
    List.Pairwise (fun a b => a.1 < b.1) (runExperiment 1 3 2 (fun _ _ _ => 0))) :=
  ⟨⟨Nat.zero_lt_one, by omega, by omega⟩,
    claim_C6 1 3 2 (fun _ _ _ => 0) Nat.zero_lt_one (by omega) 2 (by omega)⟩

end ForestFire
